import Mathlib

/-!
Formal model of the Security-Vault credential manager.

The development shallowly embeds the two core Python modules,
src/crypto_utils.py (class CryptoUtils) and src/password_manager.py
(class PasswordManager).  Pure functions become Lean functions; the
mutable object state (self.credentials, self.master_password) and the
file system (the master-hash file, the encrypted data file, export
files) become an explicit state record threaded through the operations.
Randomness (os.urandom salts) and clock reads (datetime.now) are passed
as explicit arguments.

Python dictionaries are modelled as insertion-ordered association lists
with unique keys; dictionary assignment keeps the position of an
existing key and appends a new one, exactly as CPython dicts do.

Note that password_manager.py defines get_credential and
update_credential several times; Python keeps only the last definition
of each, so the effective methods are get_credential at line 197 and
update_credential at line 212 of the source.  The model embeds those
effective definitions.
-/

namespace SecurityVault

/-- Lookup in a Python dict modelled as an association list. -/
def dget {κ α : Type} [DecidableEq κ] : List (κ × α) → κ → Option α
  | [], _ => none
  | (k, v) :: rest, q => if k = q then some v else dget rest q

/-- Membership test in a Python dict (the "in" operator). -/
def dmem {κ α : Type} [DecidableEq κ] (d : List (κ × α)) (q : κ) : Bool :=
  (dget d q).isSome

/-- Dictionary assignment d[q] = v: replaces in place when the key is
present (keeping its position), appends otherwise, as CPython does. -/
def dset {κ α : Type} [DecidableEq κ] : List (κ × α) → κ → α → List (κ × α)
  | [], q, v => [(q, v)]
  | (k, w) :: rest, q, v =>
    if k = q then (k, v) :: rest else (k, w) :: dset rest q v

/-- Dictionary deletion del d[q]. -/
def ddel {κ α : Type} [DecidableEq κ] : List (κ × α) → κ → List (κ × α)
  | [], _ => []
  | (k, w) :: rest, q => if k = q then rest else (k, w) :: ddel rest q

/-! ### Credential records

A credential record is the dict written by add_credential (fields
username, password, notes, timestamp) possibly extended with the
updated_at field written by update_credential; the two timestamp-like
fields are optional since each appears only after the corresponding
operation ran. -/

structure Credential where
  username : String
  password : String
  notes : String
  timestamp : Option String
  updated_at : Option String
deriving DecidableEq

/-! ### Serialization

The manager persists its state as json.dumps of the credentials dict
and parses it back with json.loads.  The claims never depend on the
concrete JSON text, only on loads being a left inverse of dumps on the
two value shapes the program serializes (the credentials mapping, and
the export wrapper object with exported_at and version metadata).  We
therefore model the serialized text by an executable injective encoding
of those two shapes with an executable decoder, and prove the
round-trip property that json gives the program. -/

inductive JVal where
  | creds (cs : List (String × Credential))
  | exportData (exported_at version : String) (cs : List (String × Credential))
deriving DecidableEq

/-- Unary encoding of a natural number into characters. -/
def encNat : Nat → List Char
  | 0 => [ '0' ]
  | n + 1 => '1' :: encNat n

def decNat : List Char → Option (Nat × List Char)
  | [] => none
  | c :: cs =>
    if c = '1' then
      match decNat cs with
      | some (n, r) => some (n + 1, r)
      | none => none
    else if c = '0' then some (0, cs)
    else none

/-- Length-prefixed encoding of a string. -/
def encStr (s : String) : List Char := encNat s.data.length ++ s.data

def decStr (l : List Char) : Option (String × List Char) :=
  match decNat l with
  | some (n, r) =>
    if n ≤ r.length then some (String.mk (r.take n), r.drop n) else none
  | none => none

def encOptStr : Option String → List Char
  | none => [ 'n' ]
  | some s => 'j' :: encStr s

def decOptStr : List Char → Option (Option String × List Char)
  | [] => none
  | c :: cs =>
    if c = 'n' then some (none, cs)
    else if c = 'j' then
      match decStr cs with
      | some (s, r) => some (some s, r)
      | none => none
    else none

def encCred (c : Credential) : List Char :=
  encStr c.username ++ encStr c.password ++ encStr c.notes ++
    encOptStr c.timestamp ++ encOptStr c.updated_at

def decCred (l : List Char) : Option (Credential × List Char) :=
  match decStr l with
  | none => none
  | some (u, r1) =>
    match decStr r1 with
    | none => none
    | some (p, r2) =>
      match decStr r2 with
      | none => none
      | some (nts, r3) =>
        match decOptStr r3 with
        | none => none
        | some (ts, r4) =>
          match decOptStr r4 with
          | none => none
          | some (ua, r5) =>
            some ({ username := u, password := p, notes := nts,
                    timestamp := ts, updated_at := ua }, r5)

def encEntries : List (String × Credential) → List Char
  | [] => []
  | e :: rest => encStr e.1 ++ encCred e.2 ++ encEntries rest

def decEntries : Nat → List Char → Option (List (String × Credential) × List Char)
  | 0, l => some ([], l)
  | n + 1, l =>
    match decStr l with
    | none => none
    | some (k, r1) =>
      match decCred r1 with
      | none => none
      | some (c, r2) =>
        match decEntries n r2 with
        | none => none
        | some (cs, r3) => some ((k, c) :: cs, r3)

/-- Model of json.dumps on the value shapes the program writes. -/
def dumps : JVal → String
  | .creds cs => String.mk ( 'C' :: (encNat cs.length ++ encEntries cs))
  | .exportData ea ver cs =>
      String.mk ( 'E' :: (encStr ea ++ encStr ver ++ encNat cs.length ++ encEntries cs))

/-- Model of json.loads, the partial inverse of dumps. -/
def loads (s : String) : Option JVal :=
  match s.data with
  | [] => none
  | c :: r =>
    if c = 'C' then
      match decNat r with
      | none => none
      | some (n, r1) =>
        match decEntries n r1 with
        | none => none
        | some (cs, r2) => if r2 = [] then some (.creds cs) else none
    else if c = 'E' then
      match decStr r with
      | none => none
      | some (ea, r1) =>
        match decStr r1 with
        | none => none
        | some (ver, r2) =>
          match decNat r2 with
          | none => none
          | some (n, r3) =>
            match decEntries n r3 with
            | none => none
            | some (cs, r4) => if r4 = [] then some (.exportData ea ver cs) else none
    else none

/-! ### Cryptography (crypto_utils.py)

Byte strings are lists of naturals.  The UTF-8 encoding str.encode and
its inverse bytes.decode are modelled by the character codes of the
string.  PBKDF2 key derivation is deterministic in the password and
salt, and we idealize it as injective (collisions are ignored), so the
derived key is modelled by the pair of its inputs.  Fernet is an
authenticated encryption scheme; we idealize it in the standard way: a
token is an (injective, executable) byte encoding of the key and the
plaintext, and decryption with a key that does not match the token, or
of bytes that are not a well-formed token, fails exactly as
cryptography.fernet raises InvalidToken. -/

def strBytes (s : String) : List Nat := s.data.map Char.toNat

def strOfBytes (bs : List Nat) : String := String.mk (bs.map Char.ofNat)

/-- Length-prefixed encoding of a byte list. -/
def encBL (l : List Nat) : List Nat := l.length :: l

def decBL : List Nat → Option (List Nat × List Nat)
  | [] => none
  | n :: rest => if n ≤ rest.length then some (rest.take n, rest.drop n) else none

/-- A Fernet key as derived by CryptoUtils, identified with the password
and salt it was derived from (PBKDF2 idealized as injective). -/
abbrev FernetKey := String × List Nat

/-- Embeds the CryptoUtils key derivation method: PBKDF2-HMAC-SHA256
over the password and salt, idealized as the pair of its inputs. -/
def derive_key_from_password (password : String) (salt : List Nat) : FernetKey :=
  (password, salt)

/-- Idealized Fernet encryption: the token binds the key and plaintext. -/
def fernetEncrypt (key : FernetKey) (pt : String) : List Nat :=
  encBL (strBytes key.1) ++ encBL key.2 ++ encBL (strBytes pt)

def decodeToken (bs : List Nat) : Option (FernetKey × String) :=
  match decBL bs with
  | none => none
  | some (pw, r1) =>
    match decBL r1 with
    | none => none
    | some (salt, r2) =>
      match decBL r2 with
      | none => none
      | some (pt, r3) =>
        if r3 = [] then some ((strOfBytes pw, salt), strOfBytes pt) else none

/-- Idealized Fernet decryption; the none result models the InvalidToken
exception (raised both for a malformed token and for a failed tag
check under a wrong key). -/
def fernetDecrypt (key : FernetKey) (token : List Nat) : Option String :=
  match decodeToken token with
  | some (k, pt) => if k = key then some pt else none
  | none => none

/-- CryptoUtils.salt_size. -/
def saltSize : Nat := 32

/-- Embeds CryptoUtils.encrypt_data.  The fresh random salt drawn by
os.urandom(self.salt_size) is passed as an explicit argument; the
result is the envelope salt plus encrypted data. -/
def encrypt_data (data : String) (password : String) (salt : List Nat) : List Nat :=
  salt ++ fernetEncrypt (derive_key_from_password password salt) data

/-- Embeds CryptoUtils.decrypt_data: splits the first salt_size bytes
off as the salt (with no length check, exactly as the Python slicing
does), re-derives the key and decrypts the remainder.  A Fernet
InvalidToken failure is re-raised as the generic exception with the
invalid-password message; the model returns it in the error of an
Except value. -/
def decrypt_data (encrypted : List Nat) (password : String) : Except String String :=
  let salt := encrypted.take saltSize
  let content := encrypted.drop saltSize
  match fernetDecrypt (derive_key_from_password password salt) content with
  | some pt => .ok pt
  | none => .error "Invalid master password or corrupted data"

/-! ### The password manager (password_manager.py)

The file system visible to the manager consists of the master-hash
file, the encrypted data file, and any export files addressed by name;
a Boolean flag models an I/O environment in which reading the
master-hash file raises (every other modelled file operation is
infallible, which matches the claims under check).  File permission
hardening (os.chmod) has no observable effect in the model and is
omitted. -/

structure FS where
  master_hash_file : Option String
  hashReadError : Bool
  data_file : Option (List Nat)
  backups : List (String × List Nat)
deriving DecidableEq

structure PasswordManager where
  master_password : Option String
  credentials : List (String × Credential)
  fs : FS
deriving DecidableEq

/-- Embeds the PasswordManager constructor on an existing file system:
no master password, empty in-memory credentials. -/
def freshManager (fs : FS) : PasswordManager :=
  { master_password := none, credentials := [], fs := fs }

/-- Embeds PasswordManager._hash_master_password: PBKDF2 with the fixed
salt, hex encoded; idealized as an injective function of the password. -/
def hash_master_password (p : String) : String := String.mk ( '#' :: p.data)

/-- Embeds PasswordManager.verify_master_password: false when the
master-hash file does not exist; on any exception while reading it
(modelled by the hashReadError flag) the except branch returns false;
otherwise compares the stored hash with the recomputed one. -/
def verify_master_password (pm : PasswordManager) (password : String) : Bool :=
  match pm.fs.master_hash_file with
  | none => false
  | some stored =>
    if pm.fs.hashReadError then false
    else decide (stored = hash_master_password password)

/-- Embeds PasswordManager._load_credentials: a missing or empty data
file yields an empty mapping; otherwise the file is decrypted with the
current master password and parsed.  In the model the data file only
ever holds a serialized credentials mapping, so a payload of any other
shape is treated as the parse-failure exception. -/
def load_credentials (pm : PasswordManager) : Except String PasswordManager :=
  match pm.fs.data_file with
  | none => .ok { pm with credentials := [] }
  | some bs =>
    if bs.isEmpty then .ok { pm with credentials := [] }
    else
      match decrypt_data bs (pm.master_password.getD "") with
      | .error e => .error ("Failed to load credentials: " ++ e)
      | .ok txt =>
        match loads txt with
        | some (.creds cs) => .ok { pm with credentials := cs }
        | _ => .error "Corrupted credentials file. Unable to parse data."

/-- Embeds PasswordManager._save_credentials: serializes the whole
mapping, encrypts it under the master password with a fresh salt
(passed explicitly), and overwrites the data file.  The Python method
raises on a manager whose master password is still None (None has no
encode method); the getD default totalizes the model, and every
theorem below applies this definition only at states whose master
password is set, where the two agree. -/
def save_credentials (pm : PasswordManager) (salt : List Nat) : PasswordManager :=
  let enc := encrypt_data (dumps (.creds pm.credentials)) (pm.master_password.getD "") salt
  { pm with fs := { pm.fs with data_file := some enc } }

/-- Embeds PasswordManager.authenticate: verify the password, then
remember it and load the credentials. -/
def authenticate (pm : PasswordManager) (password : String) :
    Except String (Bool × PasswordManager) :=
  if verify_master_password pm password then
    match load_credentials { pm with master_password := some password } with
    | .ok pm2 => .ok (true, pm2)
    | .error e => .error e
  else .ok (false, pm)

/-- Embeds PasswordManager.initialize_master_password: writes the
verification hash for the chosen password, remembers the password,
resets the in-memory mapping to empty and saves it encrypted, yielding
a freshly set up vault. -/
def initialize_master_password (pm : PasswordManager) (password : String)
    (salt : List Nat) : PasswordManager :=
  let pm1 := { pm with
    master_password := some password,
    credentials := [],
    fs := { pm.fs with master_hash_file := some (hash_master_password password) } }
  save_credentials pm1 salt

/-- Embeds PasswordManager.add_credential.  The duplicate check and the
insertion use the service string exactly as given, with no
normalization; the current time and the save salt are explicit. -/
def add_credential (pm : PasswordManager)
    (service username password notes now : String) (salt : List Nat) :
    Except String PasswordManager :=
  if dmem pm.credentials service then
    .error ("Service " ++ service ++ " already exists.")
  else
    let c : Credential :=
      { username := username, password := password, notes := notes,
        timestamp := some now, updated_at := none }
    let pm2 := { pm with credentials := dset pm.credentials service c }
    .ok (save_credentials pm2 salt)

/-- Embeds the normalization site.lower().strip() applied by the
effective get_credential, update_credential and delete_credential.
Python str.strip removes leading and trailing whitespace. -/
def normalizeKey (s : String) : String :=
  let ws : Char → Bool := fun c => c = ' ' ∨ c = '\t' ∨ c = '\n' ∨ c = '\r'
  String.mk (((s.data.map Char.toLower).dropWhile ws).reverse.dropWhile ws).reverse

/-- Embeds the effective PasswordManager.get_credential (line 197):
normalized lookup. -/
def get_credential (pm : PasswordManager) (site : String) : Option Credential :=
  dget pm.credentials (normalizeKey site)

/-- Embeds the effective PasswordManager.update_credential (line 212):
partial update of the provided fields under the normalized key. -/
def update_credential (pm : PasswordManager) (site : String)
    (username password notes : Option String) (now : String) (salt : List Nat) :
    Except String (Bool × PasswordManager) :=
  let key := normalizeKey site
  match dget pm.credentials key with
  | none => .ok (false, pm)
  | some c =>
    let c2 : Credential :=
      { username := username.getD c.username,
        password := password.getD c.password,
        notes := notes.getD c.notes,
        timestamp := c.timestamp,
        updated_at := some now }
    .ok (true, save_credentials { pm with credentials := dset pm.credentials key c2 } salt)

/-- Embeds PasswordManager.delete_credential: normalized removal. -/
def delete_credential (pm : PasswordManager) (site : String) (salt : List Nat) :
    Except String (Bool × PasswordManager) :=
  let key := normalizeKey site
  match dget pm.credentials key with
  | none => .ok (false, pm)
  | some _ =>
    .ok (true, save_credentials { pm with credentials := ddel pm.credentials key } salt)

/-- Embeds PasswordManager.change_master_password: returns false when
the current password does not verify; otherwise writes the new hash,
switches the in-memory master password and re-encrypts the store. -/
def change_master_password (pm : PasswordManager)
    (current_password new_password : String) (salt : List Nat) :
    Except String (Bool × PasswordManager) :=
  if verify_master_password pm current_password then
    let pm2 := { pm with
      master_password := some new_password,
      fs := { pm.fs with master_hash_file := some (hash_master_password new_password) } }
    .ok (true, save_credentials pm2 salt)
  else .ok (false, pm)

/-- Embeds PasswordManager.export_credentials: returns false on an
empty store; otherwise wraps the mapping with exported_at and version
metadata, encrypts it under the current master password with a fresh
salt and writes it to the named file. -/
def export_credentials (pm : PasswordManager) (filename now : String) (salt : List Nat) :
    Except String (Bool × PasswordManager) :=
  if pm.credentials.isEmpty then .ok (false, pm)
  else
    let enc := encrypt_data (dumps (.exportData now "1.0" pm.credentials))
      (pm.master_password.getD "") salt
    .ok (true, { pm with fs := { pm.fs with backups := dset pm.fs.backups filename enc } })

/-- Merging loop of import_credentials: each imported record overwrites
the entry with the same key. -/
def mergeAll (base : List (String × Credential)) (cs : List (String × Credential)) :
    List (String × Credential) :=
  cs.foldl (fun acc e => dset acc e.1 e.2) base

/-- Embeds PasswordManager.import_credentials: returns false when the
source file does not exist; otherwise decrypts it under the given
password, merges the contained credentials object by overwrite, and
saves.  A decrypted payload without a credentials object merges
nothing. -/
def import_credentials (pm : PasswordManager)
    (filename master_password : String) (salt : List Nat) :
    Except String (Bool × PasswordManager) :=
  match dget pm.fs.backups filename with
  | none => .ok (false, pm)
  | some bs =>
    match decrypt_data bs master_password with
    | .error e => .error ("Failed to import credentials: " ++ e)
    | .ok txt =>
      match loads txt with
      | none => .error "Failed to import credentials: invalid data"
      | some (.exportData _ _ cs) =>
        .ok (true, save_credentials { pm with credentials := mergeAll pm.credentials cs } salt)
      | some (.creds _) => .ok (true, save_credentials pm salt)

/-! ### Reference semantics of the credentials dict (for claim C8)

get_all_credentials returns self.credentials.copy().  A Python
dict.copy is shallow: it allocates a new outer dict holding the same
references to the mutable per-credential record dicts.  To express
aliasing, this fragment models the store dict as a mapping from service
keys to references into a heap of record dicts. -/

structure RecHeap where
  cells : List (Nat × Credential)
deriving DecidableEq

structure CredDict where
  entries : List (String × Nat)
deriving DecidableEq

def heapGet (h : RecHeap) (r : Nat) : Option Credential := dget h.cells r

/-- In-place mutation of a credential record dict through a reference,
as a caller can perform on a record obtained from the copied dict. -/
def heapSet (h : RecHeap) (r : Nat) (c : Credential) : RecHeap := ⟨dset h.cells r c⟩

/-- Embeds PasswordManager.get_all_credentials: dict.copy, a new outer
dict holding the same record references. -/
def get_all_credentials (d : CredDict) : CredDict := ⟨d.entries⟩

/-- What the store itself observes for a service key: follow its own
entry reference into the heap. -/
def storeView (d : CredDict) (h : RecHeap) (k : String) : Option Credential :=
  match dget d.entries k with
  | some r => heapGet h r
  | none => none

/-! ### Concrete fixtures used by witnesses and counterexamples -/

def salt0 : List Nat := List.replicate 32 0

def fs0 : FS :=
  { master_hash_file := some (hash_master_password "master"),
    hashReadError := false, data_file := none, backups := [] }

def cred0 : Credential :=
  { username := "alice", password := "pw1", notes := "", timestamp := some "t0",
    updated_at := none }

/-- An authenticated manager over an empty store. -/
def pm0 : PasswordManager :=
  { master_password := some "master", credentials := [], fs := fs0 }

/-- An authenticated manager holding one credential under the
normalized key gmail. -/
def pm1 : PasswordManager :=
  { master_password := some "master", credentials := [("gmail", cred0)], fs := fs0 }

def dict8 : CredDict := ⟨[("gmail", 0)]⟩

def heap8 : RecHeap := ⟨[(0, cred0)]⟩

def cred8 : Credential :=
  { username := "alice", password := "changed", notes := "", timestamp := some "t0",
    updated_at := none }

def fsErr : FS :=
  { master_hash_file := some (hash_master_password "m"),
    hashReadError := true, data_file := none, backups := [] }

def pmErr : PasswordManager :=
  { master_password := none, credentials := [], fs := fsErr }

/-! ## Theorems -/

/-! ### Dictionary lemmas -/

theorem dget_dset_self {κ α : Type} [DecidableEq κ]
    (d : List (κ × α)) (k : κ) (v : α) : dget (dset d k v) k = some v := by
  induction d with
  | nil => simp [dget, dset]
  | cons e rest ih =>
    obtain ⟨k0, w⟩ := e
    by_cases h : k0 = k <;> simp [dget, dset, h, ih]

theorem dget_dset_ne {κ α : Type} [DecidableEq κ]
    (d : List (κ × α)) (k q : κ) (v : α) (hne : k ≠ q) :
    dget (dset d k v) q = dget d q := by
  induction d with
  | nil => simp [dget, dset, hne]
  | cons e rest ih =>
    obtain ⟨k0, w⟩ := e
    by_cases h : k0 = k
    · subst h
      simp [dget, dset, hne]
    · simp [dget, dset, h, ih]

theorem dget_append {κ α : Type} [DecidableEq κ]
    (a b : List (κ × α)) (q : κ) :
    dget (a ++ b) q = match dget a q with
      | some v => some v
      | none => dget b q := by
  induction a with
  | nil => simp [dget]
  | cons e rest ih =>
    obtain ⟨k0, w⟩ := e
    by_cases h : k0 = q <;> simp [dget, h, ih]

theorem dset_eq_append {κ α : Type} [DecidableEq κ]
    (d : List (κ × α)) (k : κ) (v : α) (h : dget d k = none) :
    dset d k v = d ++ [(k, v)] := by
  induction d with
  | nil => simp [dset]
  | cons e rest ih =>
    obtain ⟨k0, w⟩ := e
    by_cases hk : k0 = k
    · subst hk
      simp [dget] at h
    · simp [dget, hk] at h
      simp [dset, hk, ih h]

/-! ### Serialization round trip -/

theorem decNat_encNat (n : Nat) (rest : List Char) :
    decNat (encNat n ++ rest) = some (n, rest) := by
  induction n with
  | zero => simp [encNat, decNat]
  | succ k ih => simp [encNat, decNat, ih]

theorem mk_data (s : String) : String.mk s.data = s := by
  cases s
  rfl

theorem decStr_encStr (s : String) (rest : List Char) :
    decStr (encStr s ++ rest) = some (s, rest) := by
  unfold encStr decStr
  rw [List.append_assoc, decNat_encNat]
  simp [List.take_left, List.drop_left, mk_data]

theorem decOptStr_encOptStr (o : Option String) (rest : List Char) :
    decOptStr (encOptStr o ++ rest) = some (o, rest) := by
  cases o <;> simp [encOptStr, decOptStr, decStr_encStr]

theorem decCred_encCred (c : Credential) (rest : List Char) :
    decCred (encCred c ++ rest) = some (c, rest) := by
  simp [encCred, decCred, List.append_assoc, decStr_encStr, decOptStr_encOptStr]

theorem decEntries_encEntries (cs : List (String × Credential)) (rest : List Char) :
    decEntries cs.length (encEntries cs ++ rest) = some (cs, rest) := by
  induction cs with
  | nil => simp [encEntries, decEntries]
  | cons e cs ih =>
    simp [encEntries, decEntries, List.append_assoc, decStr_encStr, decCred_encCred, ih]

theorem decNat_encNat_nil (n : Nat) : decNat (encNat n) = some (n, []) := by
  have h := decNat_encNat n []
  simpa using h

theorem decEntries_encEntries_nil (cs : List (String × Credential)) :
    decEntries cs.length (encEntries cs) = some (cs, []) := by
  have h := decEntries_encEntries cs []
  simpa using h

theorem loads_dumps (v : JVal) : loads (dumps v) = some v := by
  cases v with
  | creds cs =>
    simp [dumps, loads, decNat_encNat, decEntries_encEntries_nil]
  | exportData ea ver cs =>
    simp [dumps, loads, List.append_assoc, decStr_encStr, decNat_encNat,
      decEntries_encEntries_nil]

/-! ### Cryptography lemmas -/

theorem strOfBytes_strBytes (s : String) : strOfBytes (strBytes s) = s := by
  have h : Char.ofNat ∘ Char.toNat = id := funext fun c => Char.ofNat_toNat c
  simp [strOfBytes, strBytes, List.map_map, h, mk_data]

theorem decBL_encBL (l rest : List Nat) : decBL (encBL l ++ rest) = some (l, rest) := by
  simp [encBL, decBL, List.take_left, List.drop_left]

theorem decBL_encBL_nil (l : List Nat) : decBL (encBL l) = some (l, []) := by
  have h := decBL_encBL l []
  simpa using h

theorem decodeToken_fernetEncrypt (key : FernetKey) (pt : String) :
    decodeToken (fernetEncrypt key pt) = some (key, pt) := by
  obtain ⟨pw, salt⟩ := key
  simp [fernetEncrypt, decodeToken, List.append_assoc, decBL_encBL, decBL_encBL_nil,
    strOfBytes_strBytes]

theorem decrypt_data_encrypt_data (D P : String) (salt : List Nat)
    (hs : salt.length = saltSize) :
    decrypt_data (encrypt_data D P salt) P = .ok D := by
  unfold decrypt_data encrypt_data
  rw [List.take_left' hs, List.drop_left' hs]
  simp [fernetDecrypt, decodeToken_fernetEncrypt]

theorem encrypt_data_isEmpty_eq_false (D P : String) (salt : List Nat)
    (hs : salt.length = saltSize) : (encrypt_data D P salt).isEmpty = false := by
  unfold encrypt_data
  cases salt with
  | nil => simp [saltSize] at hs
  | cons a l => simp [List.isEmpty]

/-! ### Manager lemmas -/

theorem hash_master_password_inj {p q : String}
    (h : hash_master_password p = hash_master_password q) : p = q := by
  unfold hash_master_password at h
  have hd : ( '#' :: p.data) = ( '#' :: q.data) := congrArg String.data h
  have hpq : p.data = q.data := by
    injection hd
  calc p = String.mk p.data := (mk_data p).symm
    _ = String.mk q.data := by rw [hpq]
    _ = q := mk_data q

theorem mergeAll_of_disjoint (cs : List (String × Credential)) :
    ∀ acc : List (String × Credential), (cs.map Prod.fst).Nodup →
      (∀ k, k ∈ cs.map Prod.fst → dget acc k = none) →
      mergeAll acc cs = acc ++ cs := by
  induction cs with
  | nil => intro acc _ _; simp [mergeAll]
  | cons e cs ih =>
    intro acc hnd habs
    obtain ⟨k, v⟩ := e
    simp only [List.map_cons, List.nodup_cons] at hnd
    have hk : dget acc k = none := habs k (by simp)
    have step : dset acc k v = acc ++ [(k, v)] := dset_eq_append acc k v hk
    have habs2 : ∀ q, q ∈ cs.map Prod.fst → dget (acc ++ [(k, v)]) q = none := by
      intro q hq
      have hqk : k ≠ q := fun h => hnd.1 (h ▸ hq)
      have h1 : dget acc q = none := habs q (by simp [hq])
      rw [dget_append, h1]
      simp [dget, hqk]
    have := ih (acc ++ [(k, v)]) hnd.2 habs2
    simp only [mergeAll, List.foldl_cons] at *
    rw [step, this, List.append_assoc]
    rfl

theorem mergeAll_nil (cs : List (String × Credential))
    (hnd : (cs.map Prod.fst).Nodup) : mergeAll [] cs = cs := by
  have h := mergeAll_of_disjoint cs [] hnd (by intro k _; rfl)
  simpa using h

/-- A manager that verified a password has a readable master-hash file
whose content is the hash of that password. -/
theorem verify_true_elim {pm : PasswordManager} {p : String}
    (hv : verify_master_password pm p = true) :
    pm.fs.hashReadError = false ∧
      pm.fs.master_hash_file = some (hash_master_password p) := by
  unfold verify_master_password at hv
  cases hm : pm.fs.master_hash_file with
  | none => rw [hm] at hv; cases hv
  | some stored =>
    rw [hm] at hv
    have hv2 : (if pm.fs.hashReadError = true then false
        else decide (stored = hash_master_password p)) = true := hv
    cases hr : pm.fs.hashReadError with
    | true => rw [hr] at hv2; simp at hv2
    | false =>
      rw [hr, if_neg Bool.false_ne_true] at hv2
      exact ⟨rfl, by rw [of_decide_eq_true hv2]⟩

/-- Opening a fresh manager on files just written by save_credentials
and authenticating with the password the save used recovers the saved
credentials. -/
theorem authenticate_freshManager_save (pm : PasswordManager) (salt : List Nat)
    (p : String) (hs : salt.length = saltSize)
    (hmp : pm.master_password = some p)
    (hv : verify_master_password (freshManager (save_credentials pm salt).fs) p = true) :
    ∃ pm3, authenticate (freshManager (save_credentials pm salt).fs) p =
        .ok (true, pm3) ∧ pm3.credentials = pm.credentials := by
  have hload : load_credentials { freshManager (save_credentials pm salt).fs with
      master_password := some p } =
      .ok { freshManager (save_credentials pm salt).fs with
        master_password := some p, credentials := pm.credentials } := by
    unfold load_credentials save_credentials freshManager
    simp only [hmp, Option.getD_some]
    rw [encrypt_data_isEmpty_eq_false _ _ _ hs, if_neg Bool.false_ne_true,
      decrypt_data_encrypt_data _ _ _ hs]
    simp only [loads_dumps]
  refine ⟨{ freshManager (save_credentials pm salt).fs with
      master_password := some p, credentials := pm.credentials }, ?_, rfl⟩
  unfold authenticate
  rw [if_pos hv, hload]

/-! ### Claims -/

/-- C1: encrypt/decrypt round-trip.  For every plaintext string D,
password P and salt of the size the code draws from os.urandom,
decrypt_data applied to encrypt_data of D under P returns D. -/
theorem C1_encrypt_decrypt_roundtrip (D P : String) (salt : List Nat)
    (hs : salt.length = saltSize) :
    decrypt_data (encrypt_data D P salt) P = .ok D :=
  decrypt_data_encrypt_data D P salt hs

theorem C1_encrypt_decrypt_roundtrip_witness :
    salt0.length = saltSize ∧
      decrypt_data (encrypt_data "secret" "hunter2" salt0) "hunter2" = .ok "secret" :=
  ⟨by decide, C1_encrypt_decrypt_roundtrip "secret" "hunter2" salt0 (by decide)⟩

/-- C2: the claim says the store normalizes the service key on every
insert, so that adding Gmail and then gmail-with-a-space collides.
Evaluating the code shows the opposite: add_credential stores the key
exactly as given, so the credential added under Gmail is not
retrievable by the normalizing get_credential, and a second add under
the case/whitespace variant succeeds, leaving two records. -/
theorem C2_add_credential_no_normalization :
    (add_credential pm0 "Gmail" "alice" "pw1" "" "t1" salt0).map
        (fun pmA => (get_credential pmA "Gmail",
          (add_credential pmA "gmail " "bob" "pw2" "" "t2" salt0).map
            (fun pmB => pmB.credentials.map Prod.fst))) =
      .ok (none, .ok ["Gmail", "gmail "]) := by rfl

/-- C3: partial update semantics of update_credential.  When the
normalized key is absent it returns false without error and changes
nothing; when present it overwrites exactly the fields passed as some,
keeps the remaining fields (including the original password when none
is provided) and the creation timestamp, sets updated_at to the current
time, leaves every other service and the rest of the state untouched,
and persists the whole store to the data file. -/
theorem C3_update_credential_partial_semantics (pm : PasswordManager) (site : String)
    (username password notes : Option String) (now : String) (salt : List Nat) :
    (get_credential pm site = none →
      update_credential pm site username password notes now salt = .ok (false, pm)) ∧
    (∀ c, get_credential pm site = some c →
      ∃ pm2, update_credential pm site username password notes now salt = .ok (true, pm2) ∧
        get_credential pm2 site = some
          { username := username.getD c.username,
            password := password.getD c.password,
            notes := notes.getD c.notes,
            timestamp := c.timestamp,
            updated_at := some now } ∧
        (∀ other, normalizeKey other ≠ normalizeKey site →
          get_credential pm2 other = get_credential pm other) ∧
        pm2.master_password = pm.master_password ∧
        pm2.fs.master_hash_file = pm.fs.master_hash_file ∧
        pm2.fs.backups = pm.fs.backups ∧
        pm2.fs.data_file =
          some (encrypt_data (dumps (.creds pm2.credentials))
            (pm.master_password.getD "") salt)) := by
  constructor
  · intro h
    unfold get_credential at h
    simp [update_credential, h]
  · intro c h
    unfold get_credential at h
    unfold update_credential
    simp only [h]
    refine ⟨_, rfl, ?_, ?_, rfl, rfl, rfl, rfl⟩
    · simp [get_credential, save_credentials, dget_dset_self]
    · intro other hne
      simp [get_credential, save_credentials]
      exact dget_dset_ne _ _ _ _ fun hx => hne hx.symm

theorem C3_update_credential_partial_semantics_witness :
    get_credential pm1 "Gmail" = some cred0 ∧
      ∃ pm2, update_credential pm1 "Gmail" (some "newuser") none none "t9" salt0 =
          .ok (true, pm2) ∧
        get_credential pm2 "Gmail" = some
          { username := (some "newuser").getD cred0.username,
            password := (none : Option String).getD cred0.password,
            notes := (none : Option String).getD cred0.notes,
            timestamp := cred0.timestamp,
            updated_at := some "t9" } ∧
        (∀ other, normalizeKey other ≠ normalizeKey "Gmail" →
          get_credential pm2 other = get_credential pm1 other) ∧
        pm2.master_password = pm1.master_password ∧
        pm2.fs.master_hash_file = pm1.fs.master_hash_file ∧
        pm2.fs.backups = pm1.fs.backups ∧
        pm2.fs.data_file =
          some (encrypt_data (dumps (.creds pm2.credentials))
            (pm1.master_password.getD "") salt0) :=
  ⟨by rfl,
    (C3_update_credential_partial_semantics pm1 "Gmail" (some "newuser") none none "t9" salt0).2
      cred0 (by rfl)⟩

/-- C4 counterexample: the claim says change_master_password fails with
an AuthenticationError when the current password does not verify; the
code instead returns false without raising: on a concrete initialized
vault and a wrong current password the call evaluates to an ok result
carrying false and the unchanged state, not to an error. -/
theorem C4_change_master_password_counterexample :
    change_master_password pm0 "wrong" "newpass" salt0 = .ok (false, pm0) := by rfl

/-- C4 amended: change_master_password returns false (raising nothing)
when the current password fails verification; when it verifies, the new
verification hash is persisted and the store is re-encrypted under the
new password, so that a freshly opened manager on the resulting files
rejects the old password, accepts the new one, and recovers all
previously stored credentials intact. -/
theorem C4_change_master_password_amended (pm : PasswordManager)
    (current new_password : String) (salt : List Nat)
    (hv : verify_master_password pm current = true)
    (hne : current ≠ new_password)
    (hs : salt.length = saltSize) :
    ∃ pm2, change_master_password pm current new_password salt = .ok (true, pm2) ∧
      pm2.fs.master_hash_file = some (hash_master_password new_password) ∧
      verify_master_password (freshManager pm2.fs) current = false ∧
      verify_master_password (freshManager pm2.fs) new_password = true ∧
      ∃ pm3, authenticate (freshManager pm2.fs) new_password = .ok (true, pm3) ∧
        pm3.credentials = pm.credentials := by
  obtain ⟨hre, _⟩ := verify_true_elim hv
  refine ⟨_, by unfold change_master_password; rw [if_pos hv], rfl, ?_, ?_, ?_⟩
  · simp [verify_master_password, freshManager, save_credentials, hre]
    intro hcon
    exact hne (hash_master_password_inj hcon).symm
  · simp [verify_master_password, freshManager, save_credentials, hre]
  · exact authenticate_freshManager_save
      { pm with
          master_password := some new_password,
          fs :=
            { pm.fs with
                master_hash_file := some (hash_master_password new_password) } }
      salt new_password hs rfl
      (by simp [verify_master_password, freshManager, save_credentials, hre])

theorem C4_change_master_password_witness :
    verify_master_password pm1 "master" = true ∧
      ∃ pm2, change_master_password pm1 "master" "newpass" salt0 = .ok (true, pm2) ∧
        pm2.fs.master_hash_file = some (hash_master_password "newpass") ∧
        verify_master_password (freshManager pm2.fs) "master" = false ∧
        verify_master_password (freshManager pm2.fs) "newpass" = true ∧
        ∃ pm3, authenticate (freshManager pm2.fs) "newpass" = .ok (true, pm3) ∧
          pm3.credentials = pm1.credentials :=
  ⟨by decide,
    C4_change_master_password_amended pm1 "master" "newpass" salt0 (by decide)
      (by decide) (by decide)⟩

/-- C5 counterexample: the claim says export_credentials fails with an
EmptyStoreError on a store with zero records; the code instead returns
false without raising: on a concrete empty store the call evaluates to
an ok result carrying false and the unchanged state, not to an error. -/
theorem C5_export_empty_counterexample :
    export_credentials pm0 "backup.enc" "t1" salt0 = .ok (false, pm0) := by rfl

/-- C5 amended: export_credentials returns false (raising nothing) on
an empty store; with at least one record and an authenticated manager
it succeeds, and importing the written file, using the password the
export encrypted under, into a fresh empty vault (a new manager over
its own files, set up with initialize_master_password, so its store is
empty and its master password is set when the import saves) reproduces
the identical credential set in that vault. -/
theorem C5_export_import_amended (pm : PasswordManager) (filename now P P2 : String)
    (salt salt2 salt3 : List Nat)
    (hone : pm.credentials ≠ [])
    (hmp : pm.master_password = some P)
    (hs : salt.length = saltSize)
    (hnd : (pm.credentials.map Prod.fst).Nodup) :
    ∃ pm2, export_credentials pm filename now salt = .ok (true, pm2) ∧
      ∃ pm3, import_credentials
          (initialize_master_password
            (freshManager
              { master_hash_file := none, hashReadError := false,
                data_file := none, backups := pm2.fs.backups })
            P2 salt3)
          filename P salt2 = .ok (true, pm3) ∧
        pm3.credentials = pm.credentials := by
  have hemp : pm.credentials.isEmpty = false := by
    cases hc : pm.credentials with
    | nil => exact absurd hc hone
    | cons a l => simp [List.isEmpty]
  refine ⟨_, by unfold export_credentials; rw [if_neg (by rw [hemp]; exact Bool.false_ne_true)], ?_⟩
  unfold import_credentials
  dsimp only [initialize_master_password, save_credentials, freshManager]
  rw [dget_dset_self]
  simp only [hmp, Option.getD_some]
  simp only [decrypt_data_encrypt_data _ _ _ hs, loads_dumps]
  refine ⟨_, rfl, ?_⟩
  dsimp only [save_credentials]
  exact mergeAll_nil _ hnd

theorem C5_export_import_witness :
    pm1.credentials ≠ [] ∧ pm1.master_password = some "master" ∧
      ∃ pm2, export_credentials pm1 "backup.enc" "t1" salt0 = .ok (true, pm2) ∧
        ∃ pm3, import_credentials
            (initialize_master_password
              (freshManager
                { master_hash_file := none, hashReadError := false,
                  data_file := none, backups := pm2.fs.backups })
              "second" salt0)
            "backup.enc" "master" salt0 = .ok (true, pm3) ∧
          pm3.credentials = pm1.credentials :=
  ⟨by decide, by decide,
    C5_export_import_amended pm1 "backup.enc" "t1" "master" "second" salt0 salt0 salt0
      (by decide) (by decide) (by decide) (by decide)⟩

/-- C6 counterexample: the claim says every input shorter than the
32-byte salt makes decrypt_data fail with a FormatError distinct from
the authentication failure raised on a tag-check failure.  The code has
no length check and no such distinct failure: the empty input (length
0, below the salt size) produces exactly the same failure as decrypting
a well-formed envelope with a wrong password. -/
theorem C6_short_input_counterexample :
    ([] : List Nat).length < saltSize ∧
      decrypt_data [] "pw" = .error "Invalid master password or corrupted data" ∧
      decrypt_data (encrypt_data "a" "p" salt0) "q" =
        .error "Invalid master password or corrupted data" :=
  ⟨by decide, by rfl, by rfl⟩

/-- C6 amended: decrypt_data performs no length check; on every input
shorter than the salt size the remainder after the salt slice is empty,
Fernet rejects it as an invalid token, and the call fails with the same
generic invalid-password-or-corrupted-data failure that a wrong
password produces, not with a distinct format failure. -/
theorem C6_short_input_amended (bytes : List Nat) (p : String)
    (hlen : bytes.length < saltSize) :
    decrypt_data bytes p = .error "Invalid master password or corrupted data" := by
  unfold decrypt_data
  rw [List.drop_eq_nil_of_le (Nat.le_of_lt hlen)]
  rfl

theorem C6_short_input_witness :
    ([1, 2, 3] : List Nat).length < saltSize ∧
      decrypt_data [1, 2, 3] "pw" = .error "Invalid master password or corrupted data" :=
  ⟨by decide, C6_short_input_amended [1, 2, 3] "pw" (by decide)⟩

/-- C7: failed authentication is effect-free.  For every manager state
and password that does not verify, authenticate returns false inside a
normal result (no exception) and the state is returned unchanged: the
in-memory credentials stay as they were (empty when unloaded) and no
file of the file system, in particular the data file, is created or
altered. -/
theorem C7_authenticate_frame (pm : PasswordManager) (p : String)
    (h : verify_master_password pm p = false) :
    authenticate pm p = .ok (false, pm) := by
  simp [authenticate, h]

theorem C7_authenticate_frame_witness :
    verify_master_password pm0 "wrong" = false ∧
      authenticate pm0 "wrong" = .ok (false, pm0) :=
  ⟨by decide, C7_authenticate_frame pm0 "wrong" (by decide)⟩

/-- C8 counterexample: the claim says any mutation performed through
the mapping returned by get_all_credentials, including mutating a
contained credential record, leaves the internal mapping unchanged.
dict.copy is shallow: the copy holds the same record references, so
mutating a record through a reference read from the copy changes what
the store itself observes, on a concrete one-entry store. -/
theorem C8_get_all_shallow_counterexample :
    dget (get_all_credentials dict8).entries "gmail" = some 0 ∧
      storeView dict8 heap8 "gmail" = some cred0 ∧
      storeView dict8 (heapSet heap8 0 cred8) "gmail" = some cred8 ∧
      cred8 ≠ cred0 :=
  ⟨by rfl, by rfl, by rfl, by decide⟩

/-- C8 amended: get_all_credentials returns a shallow copy: a new outer
dict with entries identical to the internal one, sharing the credential
record dicts; hence mutations of the copied dict itself do not reach
the store, but mutating a record through a reference obtained from the
copy is observed by the store at the corresponding key. -/
theorem C8_get_all_shallow_amended (d : CredDict) (h : RecHeap) (k : String)
    (r : Nat) (c2 : Credential)
    (hk : dget (get_all_credentials d).entries k = some r) :
    (get_all_credentials d).entries = d.entries ∧
      storeView d (heapSet h r c2) k = some c2 := by
  refine ⟨rfl, ?_⟩
  unfold get_all_credentials at hk
  unfold storeView
  rw [show d.entries = (⟨d.entries⟩ : CredDict).entries from rfl, hk]
  simp [heapGet, heapSet, dget_dset_self]

theorem C8_get_all_shallow_witness :
    dget (get_all_credentials dict8).entries "gmail" = some 0 ∧
      (get_all_credentials dict8).entries = dict8.entries ∧
      storeView dict8 (heapSet heap8 0 cred8) "gmail" = some cred8 :=
  ⟨by rfl, C8_get_all_shallow_amended dict8 heap8 "gmail" 0 cred8 (by rfl)⟩

/-- C9 counterexample: the claim says verify_master_password returns
true exactly when the recomputed hash equals the stored one and raises
on I/O failure reading the master-hash file.  In a state where the
stored hash equals the recomputed hash but reading the file fails, the
except branch swallows the failure and the function returns false:
neither the claimed iff nor the claimed raise holds. -/
theorem C9_verify_counterexample :
    pmErr.fs.master_hash_file = some (hash_master_password "m") ∧
      verify_master_password pmErr "m" = false :=
  ⟨by rfl, by rfl⟩

/-- C9 amended: verify_master_password never raises and returns a
Boolean for every state and password: false when the master-hash file
is missing, false when reading it fails (the except branch returns
false instead of propagating the I/O failure), and otherwise true
exactly when the stored hash equals the recomputed one. -/
theorem C9_verify_amended (pm : PasswordManager) (p : String) :
    (pm.fs.master_hash_file = none → verify_master_password pm p = false) ∧
    (pm.fs.hashReadError = true → verify_master_password pm p = false) ∧
    (∀ stored, pm.fs.master_hash_file = some stored → pm.fs.hashReadError = false →
      (verify_master_password pm p = true ↔ stored = hash_master_password p)) := by
  refine ⟨?_, ?_, ?_⟩
  · intro h
    simp [verify_master_password, h]
  · intro h
    unfold verify_master_password
    cases hm : pm.fs.master_hash_file <;> simp [h]
  · intro stored hm hr
    simp [verify_master_password, hm, hr]

theorem C9_verify_amended_witness :
    (pm0.fs.master_hash_file = none → verify_master_password pm0 "master" = false) ∧
    (pm0.fs.hashReadError = true → verify_master_password pm0 "master" = false) ∧
    (∀ stored, pm0.fs.master_hash_file = some stored → pm0.fs.hashReadError = false →
      (verify_master_password pm0 "master" = true ↔
        stored = hash_master_password "master")) :=
  C9_verify_amended pm0 "master"

/-- C10: importing from a missing source file returns false without
raising, and the whole state, in particular the in-memory credentials
and the data file, is returned unchanged. -/
theorem C10_import_missing_file (pm : PasswordManager) (filename pw : String)
    (salt : List Nat) (h : dget pm.fs.backups filename = none) :
    import_credentials pm filename pw salt = .ok (false, pm) := by
  unfold import_credentials
  rw [h]

theorem C10_import_missing_file_witness :
    dget pm0.fs.backups "nofile.enc" = none ∧
      import_credentials pm0 "nofile.enc" "pw" salt0 = .ok (false, pm0) :=
  ⟨by rfl, C10_import_missing_file pm0 "nofile.enc" "pw" salt0 (by rfl)⟩

end SecurityVault
